import Mathlib

/-!
Verification of the ItemSet derivation engine, the item materializer and the
undoable-create protocol of `src/components/ItemManager.tsx`.

The catalog (`imageset.config.json`, typed by the `ImagesetConfig` interface)
is modelled with association lists in object-iteration order: JavaScript
`Object.entries` yields key/value pairs in a deterministic order and keys are
unique, which the theorems take as explicit `Nodup` hypotheses where needed.
-/

namespace OpenTierBoy

/-- One entry of a package's `images` array: `{filename, label, tags}`. -/
structure ImageEntry where
  filename : String
  label : String
  tags : List String
deriving DecidableEq

/-- One value of a package's `tags` dictionary: `{title, description, category}`. -/
structure TagData where
  title : String
  description : String
  category : String
deriving DecidableEq

/-- One package of the catalog: `{displayName, images, tags}`; the tag
dictionary is kept as a key/value list in iteration order. -/
structure PackageData where
  displayName : String
  images : List ImageEntry
  tags : List (String × TagData)
deriving DecidableEq

/-- The whole catalog: the `packages` mapping as a key/value list in
iteration order. -/
structure ImagesetConfig where
  packages : List (String × PackageData)
deriving DecidableEq

/-- A derived selectable group, as in `src/models/ItemSet`. -/
structure ItemSet where
  packageName : String
  packageDisplayName : String
  tagName : String
  tagTitle : String
  images : List String
deriving DecidableEq

/-- A ranking-board item, as in `src/models/Item`. -/
structure Item where
  id : String
  content : String
  imageUrl : String
  tags : List String
deriving DecidableEq

/-- The unconditional "All Items" set pushed for every package
(lines 86-92). -/
def allItemSet (packageName : String) (packageData : PackageData) : ItemSet :=
  { packageName := packageName
    packageDisplayName := packageData.displayName
    tagName := "all"
    tagTitle := "All Items"
    images := packageData.images.map (fun img => img.filename) }

/-- The images of a package carrying a given tag, in original order:
`packageData.images.filter(image => image.tags.includes(tagName))`
(line 96). -/
def taggedImages (packageData : PackageData) (tagName : String) :
    List ImageEntry :=
  packageData.images.filter (fun image => image.tags.contains tagName)

/-- One iteration of the inner `forEach` (lines 95-107): the set pushed for
one tag entry, when its filtered image list is non-empty
(`taggedImages.length > 0`), and nothing otherwise. -/
def tagItemSetFor (packageName : String) (packageData : PackageData)
    (t : String × TagData) : Option ItemSet :=
  if (taggedImages packageData t.1).length > 0 then
    some { packageName := packageName
           packageDisplayName := packageData.displayName
           tagName := t.1
           tagTitle := t.2.title
           images := (taggedImages packageData t.1).map (fun img => img.filename) }
  else none

/-- The per-tag sets pushed for one package, in tag-map iteration order. -/
def tagItemSets (packageName : String) (packageData : PackageData) :
    List ItemSet :=
  packageData.tags.filterMap (tagItemSetFor packageName packageData)

/-- The ItemSets contributed by a single package (one iteration of the outer
`forEach` in the `itemSets` memo, lines 82-108): the "All Items" set first,
then the per-tag sets. -/
def packageItemSets (packageName : String) (packageData : PackageData) :
    List ItemSet :=
  allItemSet packageName packageData :: tagItemSets packageName packageData

/-- The derivation engine: the `itemSets` memo (lines 79-111). `forEach` with
`push` accumulates the per-package lists in catalog iteration order. -/
def itemSets (config : ImagesetConfig) : List ItemSet :=
  config.packages.flatMap (fun p => packageItemSets p.1 p.2)

/-- JavaScript `image.split('.')[0]`: the text of the filename before its
first `.` (the whole string when it has no dot). -/
def beforeFirstDot (s : String) : String :=
  ⟨s.data.takeWhile (fun c => c != '.')⟩

/-- The decimal rendering of the zero-based index interpolated by the
template literal; JavaScript renders a small non-negative number in
decimal, which `Nat.repr` matches. -/
def itemId (packageName tagName : String) (index : Nat) : String :=
  packageName ++ "-" ++ tagName ++ "-item-" ++ Nat.repr index

/-- One iteration of the `images.map` callback in `handleItemSetSelect`
(lines 150-156), for an existing package. `imageData?.label || fallback`
yields the label only when the entry was found and its label is non-empty
(the empty string is falsy); `imageData?.tags || []` yields the found
entry's tags (an empty array is truthy) and `[]` when no entry matched. -/
def materializeItem (packageData : PackageData) (packageName tagName : String)
    (index : Nat) (image : String) : Item :=
  let imageData := packageData.images.find? (fun img => img.filename == image)
  { id := itemId packageName tagName index
    content :=
      match imageData with
      | some img => if img.label = "" then beforeFirstDot image else img.label
      | none => beforeFirstDot image
    imageUrl := "/images/" ++ packageName ++ "/" ++ image
    tags :=
      match imageData with
      | some img => img.tags
      | none => [] }

/-- The `images.map` loop of `handleItemSetSelect`, with the package lookup
result threaded through: when `packages[packageName]` was `undefined`, the
first callback invocation dereferences `packageData.images` and throws a
`TypeError`, modelled as `none`; an empty selection never runs the callback
and yields the empty batch. -/
def newItemsFrom (packageData : Option PackageData)
    (packageName tagName : String) (index : Nat) :
    List String → Option (List Item)
  | [] => some []
  | image :: rest =>
    match packageData with
    | none => none
    | some pd =>
      (newItemsFrom packageData packageName tagName (index + 1) rest).map
        (fun items => materializeItem pd packageName tagName index image :: items)

/-- JavaScript property access `typedImagesetConfig.packages[packageName]`:
`some` of the package's data when the key exists, `none` otherwise. -/
def lookupPackage (config : ImagesetConfig) (packageName : String) :
    Option PackageData :=
  (config.packages.find? (fun p => p.1 == packageName)).map (fun p => p.2)

/-- The item materializer: lines 148-157 of `handleItemSetSelect`, producing
the `newItems` batch (or failing, when the package is absent and the
selection non-empty). -/
def materialize (config : ImagesetConfig) (packageName tagName : String)
    (images : List String) : Option (List Item) :=
  newItemsFrom (lookupPackage config packageName) packageName tagName 0 images

/-- The notification passed to `toast` in `handleCreateItems`: title,
description, and the undo action's label and the id list that clicking it
passes to `onUndoItemsCreate`. -/
structure Toast where
  title : String
  description : String
  actionLabel : String
  undoRequestIds : List String
deriving DecidableEq

/-- Everything `handleCreateItems` does: forward the batch to
`onItemsCreate`, close the item creator, and fire one toast. -/
structure CreateResult where
  itemsCreated : List Item
  itemCreatorOpen : Bool
  toast : Toast
deriving DecidableEq

/-- `handleCreateItems` (lines 113-123): applies the create mutation via
`onItemsCreate(newItems)`, closes the creator dialog, and fires exactly one
toast whose description interpolates `newItems.length` and whose undo action
calls `onUndoItemsCreate(newItems.map(item => item.id))`. -/
def handleCreateItems (newItems : List Item) : CreateResult :=
  { itemsCreated := newItems
    itemCreatorOpen := false
    toast :=
      { title := "Items Added"
        description := Nat.repr newItems.length ++ " item(s) have been added."
        actionLabel := "Undo"
        undoRequestIds := newItems.map (fun item => item.id) } }

/-- `handleItemSetSelect` (lines 147-159): materialize the selection, then
hand the batch to `handleCreateItems`. -/
def handleItemSetSelect (config : ImagesetConfig) (packageName tagName : String)
    (images : List String) : Option CreateResult :=
  (materialize config packageName tagName images).map handleCreateItems

/-! ### Shape of the per-package item sets -/

theorem tagItemSetFor_some {packageName : String} {packageData : PackageData}
    {t : String × TagData} {s : ItemSet}
    (h : tagItemSetFor packageName packageData t = some s) :
    (taggedImages packageData t.1).length > 0 ∧
    s = { packageName := packageName
          packageDisplayName := packageData.displayName
          tagName := t.1
          tagTitle := t.2.title
          images := (taggedImages packageData t.1).map (fun img => img.filename) } := by
  rw [tagItemSetFor] at h
  by_cases hpos : (taggedImages packageData t.1).length > 0
  · rw [if_pos hpos] at h
    exact ⟨hpos, (Option.some.inj h).symm⟩
  · rw [if_neg hpos] at h
    exact absurd h (by simp)

theorem mem_tagItemSets {packageName : String} {packageData : PackageData}
    {s : ItemSet} (hs : s ∈ tagItemSets packageName packageData) :
    ∃ t ∈ packageData.tags,
      (taggedImages packageData t.1).length > 0 ∧
      s = { packageName := packageName
            packageDisplayName := packageData.displayName
            tagName := t.1
            tagTitle := t.2.title
            images := (taggedImages packageData t.1).map (fun img => img.filename) } := by
  rw [tagItemSets, List.mem_filterMap] at hs
  obtain ⟨t, ht, heq⟩ := hs
  obtain ⟨hpos, rfl⟩ := tagItemSetFor_some heq
  exact ⟨t, ht, hpos, rfl⟩

theorem mem_packageItemSets_names {packageName : String}
    {packageData : PackageData} {s : ItemSet}
    (hs : s ∈ packageItemSets packageName packageData) :
    s.packageName = packageName ∧
    s.packageDisplayName = packageData.displayName := by
  cases hs with
  | head => exact ⟨rfl, rfl⟩
  | tail _ hs =>
    obtain ⟨t, _, _, rfl⟩ := mem_tagItemSets hs
    exact ⟨rfl, rfl⟩

theorem mem_itemSets {config : ImagesetConfig} {s : ItemSet}
    (hs : s ∈ itemSets config) :
    ∃ p ∈ config.packages, s ∈ packageItemSets p.1 p.2 := by
  rw [itemSets, List.mem_flatMap] at hs
  exact hs

theorem filter_packageItemSets_pred (packageName : String)
    (packageData : PackageData) (r : ItemSet → Bool) :
    (packageItemSets packageName packageData).filter
        (fun s => (s.packageName == packageName) && r s)
      = (packageItemSets packageName packageData).filter r := by
  refine List.filter_congr (fun s hs => ?_)
  rw [(mem_packageItemSets_names hs).1]
  simp

theorem filter_flatMap_other {packageName : String} (r : ItemSet → Bool) :
    ∀ (l : List (String × PackageData)), (∀ p ∈ l, p.1 ≠ packageName) →
    (l.flatMap (fun p => packageItemSets p.1 p.2)).filter
        (fun s => (s.packageName == packageName) && r s) = [] := by
  intro l hl
  refine List.filter_eq_nil_iff.mpr (fun s hs => ?_)
  rw [List.mem_flatMap] at hs
  obtain ⟨p, hp, hsp⟩ := hs
  have h1 := (mem_packageItemSets_names hsp).1
  have : (s.packageName == packageName) = false := by
    rw [h1]
    exact beq_eq_false_iff_ne.mpr (hl p hp)
  simp [this]

theorem filter_flatMap_unique {packageName : String}
    {packageData : PackageData} (r : ItemSet → Bool) :
    ∀ (l : List (String × PackageData)), (l.map Prod.fst).Nodup →
    (packageName, packageData) ∈ l →
    (l.flatMap (fun p => packageItemSets p.1 p.2)).filter
        (fun s => (s.packageName == packageName) && r s)
      = (packageItemSets packageName packageData).filter
          (fun s => (s.packageName == packageName) && r s) := by
  intro l
  induction l with
  | nil => exact fun _ hmem => absurd hmem (List.not_mem_nil _)
  | cons a l ih =>
    intro hnodup hmem
    rw [List.map_cons, List.nodup_cons] at hnodup
    rw [List.flatMap_cons, List.filter_append]
    cases hmem with
    | head =>
      have hl : ∀ p ∈ l, p.1 ≠ packageName := by
        intro p hp hp1
        exact hnodup.1 (show packageName ∈ l.map Prod.fst from
          hp1 ▸ List.mem_map_of_mem Prod.fst hp)
      rw [filter_flatMap_other r l hl, List.append_nil]
    | tail _ hmem =>
      have ha : a.1 ≠ packageName := by
        intro h
        exact hnodup.1 (h ▸ List.mem_map_of_mem Prod.fst hmem)
      have hhead : (packageItemSets a.1 a.2).filter
          (fun s => (s.packageName == packageName) && r s) = [] := by
        refine List.filter_eq_nil_iff.mpr (fun s hs => ?_)
        have h1 := (mem_packageItemSets_names hs).1
        have : (s.packageName == packageName) = false := by
          rw [h1]; exact beq_eq_false_iff_ne.mpr ha
        simp [this]
      rw [hhead, List.nil_append]
      exact ih hnodup.2 hmem

theorem filter_itemSets_unique {config : ImagesetConfig} {packageName : String}
    {packageData : PackageData} (r : ItemSet → Bool)
    (hnodup : (config.packages.map Prod.fst).Nodup)
    (hmem : (packageName, packageData) ∈ config.packages) :
    (itemSets config).filter (fun s => (s.packageName == packageName) && r s)
      = (packageItemSets packageName packageData).filter
          (fun s => (s.packageName == packageName) && r s) :=
  filter_flatMap_unique r config.packages hnodup hmem

theorem assoc_find_eq {packageName : String} {packageData packageData' : PackageData} :
    ∀ (l : List (String × PackageData)), (l.map Prod.fst).Nodup →
    (packageName, packageData) ∈ l → (packageName, packageData') ∈ l →
    packageData = packageData' := by
  intro l
  induction l with
  | nil => exact fun _ h1 _ => absurd h1 (List.not_mem_nil _)
  | cons a l ih =>
    intro hnodup h1 h2
    rw [List.map_cons, List.nodup_cons] at hnodup
    cases h1 with
    | head =>
      cases h2 with
      | head => rfl
      | tail _ h2 =>
        exact absurd (List.mem_map_of_mem Prod.fst h2) hnodup.1
    | tail _ h1 =>
      cases h2 with
      | head => exact absurd (List.mem_map_of_mem Prod.fst h1) hnodup.1
      | tail _ h2 => exact ih hnodup.2 h1 h2

theorem filter_tagItemSets_none {packageName T : String}
    {packageData : PackageData} :
    ∀ (ts : List (String × TagData)), (∀ t ∈ ts, t.1 ≠ T) →
    (ts.filterMap (tagItemSetFor packageName packageData)).filter
        (fun s => s.tagName == T) = [] := by
  intro ts hts
  refine List.filter_eq_nil_iff.mpr (fun s hs => ?_)
  rw [List.mem_filterMap] at hs
  obtain ⟨t, ht, heq⟩ := hs
  obtain ⟨_, rfl⟩ := tagItemSetFor_some heq
  show ¬(t.1 == T) = true
  rw [beq_iff_eq]
  exact hts t ht

theorem filter_filterMap_tag {packageName T : String}
    {packageData : PackageData} {tagData : TagData} :
    ∀ (ts : List (String × TagData)), (ts.map Prod.fst).Nodup →
    (T, tagData) ∈ ts →
    (ts.filterMap (tagItemSetFor packageName packageData)).filter
        (fun s => s.tagName == T)
      = if taggedImages packageData T = [] then []
        else [{ packageName := packageName
                packageDisplayName := packageData.displayName
                tagName := T
                tagTitle := tagData.title
                images := (taggedImages packageData T).map (fun img => img.filename) }] := by
  intro ts
  induction ts with
  | nil => exact fun _ h => absurd h (List.not_mem_nil _)
  | cons a ts ih =>
    intro hnodup hmem
    rw [List.map_cons, List.nodup_cons] at hnodup
    rw [List.filterMap_cons]
    cases hmem with
    | head =>
      have hrest : ∀ t ∈ ts, t.1 ≠ T := by
        intro t ht h1
        have hmm : t.1 ∈ ts.map Prod.fst := List.mem_map_of_mem Prod.fst ht
        rw [h1] at hmm
        exact hnodup.1 hmm
      by_cases hemp : taggedImages packageData T = []
      · rw [if_pos hemp]
        have hnone : tagItemSetFor packageName packageData (T, tagData) = none := by
          simp [tagItemSetFor, hemp]
        rw [hnone]
        exact filter_tagItemSets_none ts hrest
      · rw [if_neg hemp]
        have hpos : (taggedImages packageData ((T, tagData)).1).length > 0 :=
          List.length_pos.mpr hemp
        have hsome : tagItemSetFor packageName packageData (T, tagData)
            = some { packageName := packageName
                     packageDisplayName := packageData.displayName
                     tagName := T
                     tagTitle := tagData.title
                     images := (taggedImages packageData T).map (fun img => img.filename) } := by
          rw [tagItemSetFor, if_pos hpos]
        rw [hsome, List.filter_cons, if_pos (by simp),
          filter_tagItemSets_none ts hrest]
    | tail _ hmem =>
      have ha : a.1 ≠ T := by
        intro h1
        exact hnodup.1 (h1 ▸ List.mem_map_of_mem Prod.fst hmem)
      cases hfor : tagItemSetFor packageName packageData a with
      | none =>
        simp only [hfor]
        exact ih hnodup.2 hmem
      | some s =>
        simp only [hfor]
        obtain ⟨_, rfl⟩ := tagItemSetFor_some hfor
        rw [List.filter_cons, if_neg (by simp [ha])]
        exact ih hnodup.2 hmem

theorem filter_tagItemSets_all {packageName : String} {packageData : PackageData}
    (hall : ∀ t ∈ packageData.tags, t.1 = "all" →
      taggedImages packageData "all" = []) :
    (tagItemSets packageName packageData).filter
      (fun s => s.tagName == "all") = [] := by
  refine List.filter_eq_nil_iff.mpr (fun s hs => ?_)
  obtain ⟨t, ht, hpos, rfl⟩ := mem_tagItemSets hs
  show ¬(t.1 == "all") = true
  rw [beq_iff_eq]
  intro heq
  have hemp := hall t ht heq
  rw [heq, hemp] at hpos
  simp at hpos

theorem filter_packageItemSets_all {packageName : String}
    {packageData : PackageData}
    (hall : ∀ t ∈ packageData.tags, t.1 = "all" →
      taggedImages packageData "all" = []) :
    (packageItemSets packageName packageData).filter
        (fun s => s.tagName == "all")
      = [allItemSet packageName packageData] := by
  rw [packageItemSets, List.filter_cons, if_pos (by simp [allItemSet]),
    filter_tagItemSets_all hall]

/-! ### Injectivity of the decimal rendering of indices -/

/-- The decimal digit list of a natural number, most significant first. -/
def decRepr (n : Nat) : List Char :=
  if n < 10 then [Nat.digitChar n]
  else decRepr (n / 10) ++ [Nat.digitChar (n % 10)]
termination_by n
decreasing_by
  exact Nat.div_lt_self (by omega) (by omega)

theorem decRepr_lt {n : Nat} (h : n < 10) : decRepr n = [Nat.digitChar n] := by
  rw [decRepr, if_pos h]

theorem decRepr_ge {n : Nat} (h : ¬n < 10) :
    decRepr n = decRepr (n / 10) ++ [Nat.digitChar (n % 10)] := by
  rw [decRepr, if_neg h]

theorem decRepr_ne_nil (n : Nat) : decRepr n ≠ [] := by
  by_cases h : n < 10
  · rw [decRepr_lt h]
    simp
  · rw [decRepr_ge h]
    simp

theorem toDigitsCore_eq_decRepr :
    ∀ (f n : Nat) (ds : List Char), n < f →
    Nat.toDigitsCore 10 f n ds = decRepr n ++ ds := by
  intro f
  induction f with
  | zero => exact fun n ds h => absurd h (Nat.not_lt_zero n)
  | succ f ih =>
    intro n ds h
    rw [Nat.toDigitsCore]
    by_cases h0 : n / 10 = 0
    · have hlt : n < 10 := (Nat.div_eq_zero_iff (by omega)).mp h0
      simp only [h0, if_true]
      rw [decRepr_lt hlt, Nat.mod_eq_of_lt hlt]
      rfl
    · have h10 : ¬n < 10 := fun hlt => h0 ((Nat.div_eq_zero_iff (by omega)).mpr hlt)
      simp only [h0, if_false]
      have hdiv : n / 10 < f := by
        have h1 : n / 10 < n := Nat.div_lt_self (by omega) (by omega)
        omega
      rw [ih (n / 10) (Nat.digitChar (n % 10) :: ds) hdiv, decRepr_ge h10,
        List.append_assoc]
      rfl

theorem toDigits_eq_decRepr (n : Nat) : Nat.toDigits 10 n = decRepr n := by
  rw [Nat.toDigits, toDigitsCore_eq_decRepr (n + 1) n [] (Nat.lt_succ_self n),
    List.append_nil]

theorem digitChar_inj :
    ∀ m < 10, ∀ n < 10, Nat.digitChar m = Nat.digitChar n → m = n := by
  decide

theorem decRepr_inj : ∀ m n : Nat, decRepr m = decRepr n → m = n := by
  intro m
  induction m using Nat.strong_induction_on with
  | _ m ih =>
    intro n h
    by_cases hm : m < 10 <;> by_cases hn : n < 10
    · rw [decRepr_lt hm, decRepr_lt hn] at h
      exact digitChar_inj m hm n hn (List.cons.inj h).1
    · rw [decRepr_lt hm, decRepr_ge hn] at h
      have hlen := congrArg List.length h
      simp at hlen
      exact absurd hlen (decRepr_ne_nil (n / 10))
    · rw [decRepr_ge hm, decRepr_lt hn] at h
      have hlen := congrArg List.length h
      simp at hlen
      exact absurd hlen (decRepr_ne_nil (m / 10))
    · rw [decRepr_ge hm, decRepr_ge hn] at h
      have hrev := congrArg List.reverse h
      simp only [List.reverse_append, List.reverse_cons, List.reverse_nil,
        List.nil_append, List.singleton_append, List.cons.injEq] at hrev
      have hmod : m % 10 = n % 10 :=
        digitChar_inj (m % 10) (Nat.mod_lt m (by omega)) (n % 10)
          (Nat.mod_lt n (by omega)) hrev.1
      have hdivlt : m / 10 < m := Nat.div_lt_self (by omega) (by omega)
      have hdiv : m / 10 = n / 10 :=
        ih (m / 10) hdivlt (n / 10) (List.reverse_injective hrev.2)
      omega

theorem repr_inj {m n : Nat} (h : Nat.repr m = Nat.repr n) : m = n := by
  rw [Nat.repr, Nat.repr, toDigits_eq_decRepr, toDigits_eq_decRepr] at h
  exact decRepr_inj m n (congrArg String.data h)

theorem itemId_inj (packageName tagName : String) :
    Function.Injective (itemId packageName tagName) := by
  intro i j h
  rw [itemId, itemId] at h
  have hdata := congrArg String.data h
  rw [String.data_append, String.data_append] at hdata
  exact repr_inj (String.ext (List.append_cancel_left hdata))

/-! ### Shape of the materialized batch -/

/-- Placeholder used only as the default of `List.getD` in statements whose
index is known to be in bounds. -/
def defaultItem : Item :=
  { id := "", content := "", imageUrl := "", tags := [] }

/-- The batch produced by the `images.map` callback when the package lookup
succeeded, written as a plain recursion for reasoning. -/
def newItemsList (packageData : PackageData) (packageName tagName : String)
    (index : Nat) : List String → List Item
  | [] => []
  | image :: rest =>
    materializeItem packageData packageName tagName index image ::
      newItemsList packageData packageName tagName (index + 1) rest

theorem newItemsFrom_some {packageData : PackageData}
    {packageName tagName : String} :
    ∀ (images : List String) (index : Nat),
    newItemsFrom (some packageData) packageName tagName index images
      = some (newItemsList packageData packageName tagName index images) := by
  intro images
  induction images with
  | nil => exact fun _ => rfl
  | cons image rest ih =>
    intro index
    rw [newItemsFrom, newItemsList, ih (index + 1)]
    rfl

theorem newItemsFrom_none {packageName tagName : String} :
    ∀ (images : List String) (index : Nat),
    newItemsFrom none packageName tagName index images
      = if images.isEmpty then some [] else none := by
  intro images index
  cases images with
  | nil => rfl
  | cons image rest => rfl

theorem newItemsList_length {packageData : PackageData}
    {packageName tagName : String} :
    ∀ (images : List String) (index : Nat),
    (newItemsList packageData packageName tagName index images).length
      = images.length := by
  intro images
  induction images with
  | nil => exact fun _ => rfl
  | cons image rest ih =>
    intro index
    rw [newItemsList, List.length_cons, List.length_cons, ih (index + 1)]

theorem newItemsList_getD {packageData : PackageData}
    {packageName tagName : String} :
    ∀ (images : List String) (index i : Nat), i < images.length →
    (newItemsList packageData packageName tagName index images).getD i defaultItem
      = materializeItem packageData packageName tagName (index + i)
          (images.getD i "") := by
  intro images
  induction images with
  | nil => exact fun index i h => absurd h (by simp)
  | cons image rest ih =>
    intro index i h
    cases i with
    | zero => rfl
    | succ i =>
      rw [newItemsList]
      have h' : i < rest.length := by
        rw [List.length_cons] at h
        omega
      have := ih (index + 1) i h'
      simp only [List.getD_cons_succ]
      rw [this]
      congr 1
      omega

theorem newItemsList_ids {packageData : PackageData}
    {packageName tagName : String} :
    ∀ (images : List String) (index : Nat),
    (newItemsList packageData packageName tagName index images).map
        (fun item => item.id)
      = (List.range images.length).map
          (fun i => itemId packageName tagName (index + i)) := by
  intro images
  induction images with
  | nil => exact fun _ => rfl
  | cons image rest ih =>
    intro index
    rw [newItemsList, List.map_cons, List.length_cons,
      List.range_succ_eq_map, List.map_cons, List.map_map, ih (index + 1)]
    refine congrArg₂ List.cons (by rw [Nat.add_zero]; rfl) ?_
    refine List.map_congr_left (fun i _ => ?_)
    show itemId packageName tagName (index + 1 + i)
      = itemId packageName tagName (index + (i + 1))
    congr 1
    omega

/-! ### The derivation as the spec words it (for the ordering refinement) -/

/-- Spec-side definition, following §4.1 step 2 of the spec: the ItemSet a
tag would get, with the package's images filtered to those whose tag set
contains the tag key, order preserved. -/
def specTagSet (packageName : String) (packageData : PackageData)
    (t : String × TagData) : ItemSet :=
  { packageName := packageName
    packageDisplayName := packageData.displayName
    tagName := t.1
    tagTitle := t.2.title
    images := (packageData.images.filter
        (fun img => img.tags.contains t.1)).map (fun img => img.filename) }

/-- Spec-side definition, following §4.1 of the spec: for each package in
catalog order emit the "all" set, then the per-tag sets in tag-map order
with the empty ones suppressed; concatenate across packages. -/
def specDerive (config : ImagesetConfig) : List ItemSet :=
  (config.packages.map (fun p =>
    { packageName := p.1
      packageDisplayName := p.2.displayName
      tagName := "all"
      tagTitle := "All Items"
      images := p.2.images.map (fun img => img.filename) } ::
    ((p.2.tags.map (specTagSet p.1 p.2)).filter
      (fun s => !s.images.isEmpty)))).flatten

theorem filterMap_eq_map_filter (packageName : String)
    (packageData : PackageData) :
    ∀ (ts : List (String × TagData)),
    ts.filterMap (tagItemSetFor packageName packageData)
      = (ts.map (specTagSet packageName packageData)).filter
          (fun s => !s.images.isEmpty) := by
  intro ts
  induction ts with
  | nil => rfl
  | cons a ts ih =>
    rw [List.filterMap_cons, List.map_cons, List.filter_cons]
    by_cases hpos : (taggedImages packageData a.1).length > 0
    · have hsome : tagItemSetFor packageName packageData a
          = some (specTagSet packageName packageData a) := by
        rw [tagItemSetFor, if_pos hpos]
        rfl
      have hne : taggedImages packageData a.1 ≠ [] := by
        intro hnil
        rw [hnil] at hpos
        simp at hpos
      have hcond : (!(specTagSet packageName packageData a).images.isEmpty) = true := by
        simp only [specTagSet, Bool.not_eq_true']
        rw [show (packageData.images.filter (fun img => img.tags.contains a.1))
            = taggedImages packageData a.1 from rfl, Bool.eq_false_iff]
        intro hemp
        exact hne (List.map_eq_nil_iff.mp (List.isEmpty_iff.mp hemp))
      rw [hsome, if_pos hcond, ih]
    · have hnone : tagItemSetFor packageName packageData a = none := by
        rw [tagItemSetFor, if_neg hpos]
      have hnil : taggedImages packageData a.1 = [] :=
        List.length_eq_zero.mp (by omega)
      have hcond : (!(specTagSet packageName packageData a).images.isEmpty) = false := by
        simp only [specTagSet]
        rw [show (packageData.images.filter (fun img => img.tags.contains a.1))
            = taggedImages packageData a.1 from rfl, hnil]
        rfl
      rw [hnone, if_neg (by rw [hcond]; exact fun h => Bool.false_ne_true h), ih]

theorem packageItemSets_eq_spec (packageName : String)
    (packageData : PackageData) :
    packageItemSets packageName packageData
      = { packageName := packageName
          packageDisplayName := packageData.displayName
          tagName := "all"
          tagTitle := "All Items"
          images := packageData.images.map (fun img => img.filename) } ::
        ((packageData.tags.map (specTagSet packageName packageData)).filter
          (fun s => !s.images.isEmpty)) := by
  rw [packageItemSets, tagItemSets, filterMap_eq_map_filter]
  rfl

/-! ### Concrete catalogs used by witnesses and counterexamples -/

/-- The "animals" package of the spec's concrete scenarios. -/
def animalsPackage : PackageData :=
  { displayName := "Animals"
    images := [{ filename := "cat.png", label := "Cat", tags := ["mammal"] },
               { filename := "fish.png", label := "Fish", tags := [] }]
    tags := [("mammal", { title := "Mammals", description := "", category := "" })] }

/-- A package with zero images (its "all" set must still be emitted). -/
def emptyPackage : PackageData :=
  { displayName := "Empty", images := [], tags := [] }

/-- A two-package catalog for witnesses. -/
def demoConfig : ImagesetConfig :=
  { packages := [("animals", animalsPackage), ("empty", emptyPackage)] }

/-- A package whose tag dictionary contains the key "all" and whose single
image carries that tag. -/
def allTagPackage : PackageData :=
  { displayName := "P"
    images := [{ filename := "a.png", label := "A", tags := ["all"] }]
    tags := [("all", { title := "T", description := "", category := "" })] }

def allTagConfig : ImagesetConfig :=
  { packages := [("p", allTagPackage)] }

/-- A package whose tag dictionary contains the key "all" but none of whose
images carries that tag. -/
def allKeyPackage : PackageData :=
  { displayName := "P"
    images := [{ filename := "a.png", label := "A", tags := [] }]
    tags := [("all", { title := "T", description := "", category := "" })] }

def allKeyConfig : ImagesetConfig :=
  { packages := [("p", allKeyPackage)] }

/-! ### The claims -/

/-- C6: for every Create invocation with item batch B, the undo action
attached to its notification requests removal of exactly the ids of the
items in B and no other ids; removal is requested by id set (the protocol
reads nothing but the batch, so later board mutations cannot change the
request). -/
theorem claim6_undo_ids (newItems : List Item) :
    (handleCreateItems newItems).toast.undoRequestIds
        = newItems.map (fun item => item.id) ∧
    ∀ s, s ∈ (handleCreateItems newItems).toast.undoRequestIds ↔
      ∃ item ∈ newItems, item.id = s := by
  refine ⟨rfl, fun s => ?_⟩
  rw [show (handleCreateItems newItems).toast.undoRequestIds
      = newItems.map (fun item => item.id) from rfl, List.mem_map]

/-- C8: every Create invocation, the empty batch included, applies the
mutation and fires its one notification, whose description reports the
count of items in the batch — zero for the empty batch. -/
theorem claim8_create_applies (newItems : List Item) :
    (handleCreateItems newItems).itemsCreated = newItems ∧
    (handleCreateItems newItems).toast.description
        = Nat.repr newItems.length ++ " item(s) have been added." ∧
    (handleCreateItems ([] : List Item)).itemsCreated = [] ∧
    (handleCreateItems ([] : List Item)).toast.description
        = "0 item(s) have been added." :=
  ⟨rfl, rfl, rfl, rfl⟩

/-- C9: the derivation is deterministic and order-stable — two computations
of the ItemSet sequence from list-equal catalogs yield list-equal output;
it is a pure function of the catalog, so recomputation cannot differ. -/
theorem claim9_deterministic (c₁ c₂ : ImagesetConfig) (h : c₁ = c₂) :
    itemSets c₁ = itemSets c₂ :=
  congrArg itemSets h

theorem claim9_witness : itemSets demoConfig = itemSets demoConfig :=
  claim9_deterministic demoConfig demoConfig rfl

/-- C7: the derivation output is exactly the spec-ordered sequence:
packages in catalog iteration order, and within each package the "all"
ItemSet first, followed by the per-tag ItemSets in tag-map iteration
order (with empty tag sets suppressed). -/
theorem claim7_ordering (config : ImagesetConfig) :
    itemSets config = specDerive config := by
  rw [itemSets, specDerive, List.flatMap_def]
  refine congrArg List.flatten (List.map_congr_left (fun p _ => ?_))
  exact packageItemSets_eq_spec p.1 p.2

/-- C1 as stated is false: in a catalog whose package has the tag key "all"
with a matching image, the derivation emits two ItemSets with
`tagName = "all"` for that package, not exactly one. -/
theorem claim1_counterexample :
    ¬ ((itemSets allTagConfig).filter
        (fun s => s.packageName == "p" && s.tagName == "all")).length = 1 := by
  decide

/-- C1 (amended: provided no package tag key "all" has a matching image):
each package contributes exactly one ItemSet with `tagName = "all"`, whose
images are the package's full image-filename list in original order; it is
emitted even for a package with zero images. -/
theorem claim1_all_set (config : ImagesetConfig) (packageName : String)
    (packageData : PackageData)
    (hnodup : (config.packages.map Prod.fst).Nodup)
    (hmem : (packageName, packageData) ∈ config.packages)
    (hall : ∀ t ∈ packageData.tags, t.1 = "all" →
      taggedImages packageData "all" = []) :
    (itemSets config).filter
        (fun s => s.packageName == packageName && s.tagName == "all")
      = [{ packageName := packageName
           packageDisplayName := packageData.displayName
           tagName := "all"
           tagTitle := "All Items"
           images := packageData.images.map (fun img => img.filename) }] := by
  rw [filter_itemSets_unique (fun s => s.tagName == "all") hnodup hmem,
    filter_packageItemSets_pred, filter_packageItemSets_all hall]
  rfl

theorem claim1_witness :
    (itemSets demoConfig).filter
        (fun s => s.packageName == "empty" && s.tagName == "all")
      = [{ packageName := "empty"
           packageDisplayName := "Empty"
           tagName := "all"
           tagTitle := "All Items"
           images := [] }] :=
  claim1_all_set demoConfig "empty" emptyPackage (by decide) (by decide)
    (by decide)

/-- C2 as stated is false: for the tag key "all" with zero matching images,
an ItemSet for (P, "all") still appears (the unconditional "All Items"
set), so the "appears iff at least one matching image" equivalence fails. -/
theorem claim2_counterexample :
    ("all", { title := "T", description := "", category := "" })
        ∈ allKeyPackage.tags ∧
    (∃ s ∈ itemSets allKeyConfig, s.packageName = "p" ∧ s.tagName = "all") ∧
    ∀ img ∈ allKeyPackage.images, ¬("all" ∈ img.tags) := by
  decide

/-- C2 (amended: for tags other than "all"): an ItemSet for (P, T) appears
in the derivation iff at least one image of P carries T, its images being
exactly the filenames of P's images carrying T in original order; a tag
with zero matching images produces no ItemSet. -/
theorem claim2_tag_set (config : ImagesetConfig) (packageName : String)
    (packageData : PackageData) (T : String) (tagData : TagData)
    (hnodup : (config.packages.map Prod.fst).Nodup)
    (hmem : (packageName, packageData) ∈ config.packages)
    (htagnodup : (packageData.tags.map Prod.fst).Nodup)
    (htag : (T, tagData) ∈ packageData.tags)
    (hne : T ≠ "all") :
    (itemSets config).filter
        (fun s => s.packageName == packageName && s.tagName == T)
      = if taggedImages packageData T = [] then []
        else [{ packageName := packageName
                packageDisplayName := packageData.displayName
                tagName := T
                tagTitle := tagData.title
                images := (taggedImages packageData T).map
                  (fun img => img.filename) }] := by
  rw [filter_itemSets_unique (fun s => s.tagName == T) hnodup hmem,
    filter_packageItemSets_pred, packageItemSets, List.filter_cons,
    if_neg (by
      simp only [allItemSet, beq_iff_eq]
      exact fun h => hne h.symm),
    tagItemSets, filter_filterMap_tag packageData.tags htagnodup htag]

theorem claim2_witness :
    (itemSets demoConfig).filter
        (fun s => s.packageName == "animals" && s.tagName == "mammal")
      = [{ packageName := "animals"
           packageDisplayName := "Animals"
           tagName := "mammal"
           tagTitle := "Mammals"
           images := ["cat.png"] }] := by
  have h := claim2_tag_set demoConfig "animals" animalsPackage "mammal"
    { title := "Mammals", description := "", category := "" }
    (by decide) (by decide) (by decide) (by decide) (by decide)
  rw [h]
  decide

/-- C3 as stated is false: with a packageName absent from the catalog and a
non-empty selection, the first `images.map` callback dereferences
`packageData.images` on `undefined` and throws (modelled by `none`); no
fallback items are produced. -/
theorem claim3_counterexample :
    materialize { packages := [] } "animals" "all" ["ghost.png"] = none := by
  rfl

/-- C3 (amended): for a packageName absent from the catalog, materialization
succeeds only for the empty selection (yielding the empty batch, since the
callback never runs); a non-empty selection fails at the first per-image
metadata access rather than falling back.  The synthesized-defaults fallback
applies only to filenames without a matching image entry inside an existing
package. -/
theorem claim3_missing_package (config : ImagesetConfig)
    (packageName tagName : String) (images : List String)
    (h : lookupPackage config packageName = none) :
    materialize config packageName tagName images
      = if images.isEmpty then some [] else none := by
  rw [materialize, h, newItemsFrom_none]

theorem claim3_witness :
    materialize { packages := [] } "animals" "all" [] = some [] := by
  have h := claim3_missing_package { packages := [] } "animals" "all" []
    (by rfl)
  simpa using h

/-- C4: for an existing package, the item materialized for each selected
filename has `imageUrl = "/images/" ++ packageName ++ "/" ++ filename`;
its content is the matching image entry's label when that entry is found
and its label is non-empty and otherwise the filename's text before the
first "."; its tags are the found entry's tag list, or `[]` when no entry
matches the filename. -/
theorem claim4_item_fields (config : ImagesetConfig)
    (packageName tagName : String) (packageData : PackageData)
    (images : List String) (i : Nat)
    (hpd : lookupPackage config packageName = some packageData)
    (hi : i < images.length) :
    ∃ items, materialize config packageName tagName images = some items ∧
      items.length = images.length ∧
      (items.getD i defaultItem).imageUrl
          = "/images/" ++ packageName ++ "/" ++ images.getD i "" ∧
      (∀ img, packageData.images.find?
            (fun e => e.filename == images.getD i "") = some img →
          (items.getD i defaultItem).content
              = (if img.label = "" then beforeFirstDot (images.getD i "")
                 else img.label) ∧
          (items.getD i defaultItem).tags = img.tags) ∧
      (packageData.images.find?
            (fun e => e.filename == images.getD i "") = none →
          (items.getD i defaultItem).content
              = beforeFirstDot (images.getD i "") ∧
          (items.getD i defaultItem).tags = []) := by
  refine ⟨newItemsList packageData packageName tagName 0 images,
    by rw [materialize, hpd, newItemsFrom_some],
    newItemsList_length images 0, ?_, ?_, ?_⟩
  · rw [newItemsList_getD images 0 i hi]
    rfl
  · intro img hfind
    rw [newItemsList_getD images 0 i hi]
    simp only [materializeItem, hfind]
    constructor <;> trivial
  · intro hfind
    rw [newItemsList_getD images 0 i hi]
    simp only [materializeItem, hfind]
    constructor <;> trivial

theorem claim4_witness :
    ∃ items,
      materialize demoConfig "animals" "all" ["ghost.png"] = some items ∧
      items.length = 1 ∧
      (items.getD 0 defaultItem).imageUrl = "/images/animals/ghost.png" ∧
      (∀ img, animalsPackage.images.find?
            (fun e => e.filename == "ghost.png") = some img →
          (items.getD 0 defaultItem).content
              = (if img.label = "" then beforeFirstDot "ghost.png"
                 else img.label) ∧
          (items.getD 0 defaultItem).tags = img.tags) ∧
      (animalsPackage.images.find?
            (fun e => e.filename == "ghost.png") = none →
          (items.getD 0 defaultItem).content = beforeFirstDot "ghost.png" ∧
          (items.getD 0 defaultItem).tags = []) :=
  claim4_item_fields demoConfig "animals" "all" animalsPackage
    ["ghost.png"] 0 (by rfl) (by decide)

/-- C5: for an existing package and a selection of length n, materialization
yields exactly n items — one per input filename, none dropped — whose ids
are `packageName-tagName-item-0` through `packageName-tagName-item-(n-1)`,
pairwise distinct within the batch. -/
theorem claim5_batch_ids (config : ImagesetConfig)
    (packageName tagName : String) (packageData : PackageData)
    (images : List String)
    (hpd : lookupPackage config packageName = some packageData) :
    ∃ items, materialize config packageName tagName images = some items ∧
      items.length = images.length ∧
      items.map (fun item => item.id)
        = (List.range images.length).map
            (fun i => packageName ++ "-" ++ tagName ++ "-item-" ++ Nat.repr i) ∧
      (items.map (fun item => item.id)).Nodup := by
  refine ⟨newItemsList packageData packageName tagName 0 images,
    by rw [materialize, hpd, newItemsFrom_some],
    newItemsList_length images 0, ?_, ?_⟩
  · rw [newItemsList_ids images 0]
    refine List.map_congr_left (fun i _ => ?_)
    show itemId packageName tagName (0 + i)
      = packageName ++ "-" ++ tagName ++ "-item-" ++ Nat.repr i
    rw [Nat.zero_add]
    rfl
  · rw [newItemsList_ids images 0]
    refine List.Nodup.map ?_ (List.nodup_range _)
    intro i j hij
    have := itemId_inj packageName tagName hij
    omega

theorem claim5_witness :
    ∃ items,
      materialize demoConfig "animals" "all" ["cat.png", "fish.png", "ghost.png"]
          = some items ∧
      items.length = 3 ∧
      items.map (fun item => item.id)
        = (List.range 3).map
            (fun i => "animals" ++ "-" ++ "all" ++ "-item-" ++ Nat.repr i) ∧
      (items.map (fun item => item.id)).Nodup :=
  claim5_batch_ids demoConfig "animals" "all" animalsPackage
    ["cat.png", "fish.png", "ghost.png"] (by rfl)

/-- C10: every package's "all" ItemSet carries the fixed tagTitle
"All Items" (a constant, independent of any tag metadata), and every
ItemSet the derivation emits for that package carries packageDisplayName
equal to the package's displayName field. -/
theorem claim10_titles (config : ImagesetConfig) (packageName : String)
    (packageData : PackageData)
    (hnodup : (config.packages.map Prod.fst).Nodup)
    (hmem : (packageName, packageData) ∈ config.packages) :
    (∃ s ∈ itemSets config,
        s.packageName = packageName ∧ s.tagName = "all" ∧
        s.tagTitle = "All Items" ∧
        s.packageDisplayName = packageData.displayName ∧
        s.images = packageData.images.map (fun img => img.filename)) ∧
    ∀ s ∈ itemSets config, s.packageName = packageName →
      s.packageDisplayName = packageData.displayName := by
  constructor
  · refine ⟨allItemSet packageName packageData, ?_, rfl, rfl, rfl, rfl, rfl⟩
    rw [itemSets, List.mem_flatMap]
    exact ⟨(packageName, packageData), hmem, List.mem_cons_self _ _⟩
  · intro s hs hname
    obtain ⟨p, hp, hsp⟩ := mem_itemSets hs
    obtain ⟨h1, h2⟩ := mem_packageItemSets_names hsp
    have hfst : p.1 = packageName := h1.symm.trans hname
    have hp' : (packageName, p.2) ∈ config.packages := by
      rw [← hfst]
      exact hp
    have hpd : packageData = p.2 :=
      assoc_find_eq config.packages hnodup hmem hp'
    rw [h2, hpd]

theorem claim10_witness :
    (∃ s ∈ itemSets demoConfig,
        s.packageName = "animals" ∧ s.tagName = "all" ∧
        s.tagTitle = "All Items" ∧
        s.packageDisplayName = "Animals" ∧
        s.images = ["cat.png", "fish.png"]) ∧
    ∀ s ∈ itemSets demoConfig, s.packageName = "animals" →
      s.packageDisplayName = "Animals" :=
  claim10_titles demoConfig "animals" animalsPackage (by decide) (by decide)

end OpenTierBoy
